import Mathlib

/-!
Verification of the oasis-core consensus core against its specification.

Part 1 embeds `runtime/src/common/quantity.rs`: the `Quantity` arbitrary
precision unsigned integer and its serde serialization.  A `Quantity` wraps a
`BigUint`, which we embed as `Nat`.

Part 2 models the committee scheduler and the round-based consensus backend
(`consensus/dummy`), whose implementation is not present in this source tree
(only its integration test is); those definitions are modelled from the spec.
-/

namespace Quantity

/-- Big-endian byte expansion with explicit fuel, so that the recursion is
structural (on the fuel) and kernel-reducible.  `bytesBEAux fuel n` equals the
minimal big-endian byte string of `n` whenever `n ≤ fuel`.  This embeds
`BigUint::to_bytes_be` from the `num_bigint` crate as used by
`Quantity::serialize`. -/
def bytesBEAux : Nat → Nat → List Nat
  | _, 0 => []
  | 0, _ + 1 => []
  | fuel + 1, n + 1 => bytesBEAux fuel ((n + 1) / 256) ++ [(n + 1) % 256]

/-- Embeds `Quantity::serialize` (non-human-readable branch, `quantity.rs` lines
26-33): zero serializes as the empty byte string, a non-zero value as its
big-endian bytes (`to_bytes_be`). -/
def quantToBytes (n : Nat) : List Nat :=
  if n = 0 then [] else bytesBEAux n n

/-- Embeds `BigUint::from_bytes_be`: interpret a byte string as a big-endian
unsigned integer.  Used by `BytesVisitor::visit_bytes` (`quantity.rs` lines
61-66). -/
def quantFromBytes (bs : List Nat) : Nat :=
  bs.foldl (fun acc b => acc * 256 + b) 0

/-- Embeds `BytesVisitor::visit_bytes` (`quantity.rs` lines 61-66): always returns
`Ok(Quantity(BigUint::from_bytes_be(data)))`; it has no failure path. -/
def quantVisitBytes (bs : List Nat) : Except String Nat :=
  Except.ok (quantFromBytes bs)

/-- Accumulating digit loop of `BigUint::from_str_radix(data, 10)` from the
`num_bigint` crate: an ASCII digit is accumulated, an embedded underscore is
skipped (digit-group separator), and any other character fails the parse. -/
def parseDecAux : List Char → Nat → Option Nat
  | [], acc => some acc
  | c :: cs, acc =>
      if c.isDigit then parseDecAux cs (acc * 10 + (c.toNat - 48))
      else if c = '_' then parseDecAux cs acc
      else none

/-- Leading-sign handling of `BigUint::from_str_radix`: a single leading `+`
is stripped, unless it is immediately followed by another `+`. -/
def stripPlus : List Char → List Char
  | '+' :: rest => if rest.head? = some '+' then '+' :: rest else rest
  | s => s

/-- Embeds `BytesVisitor::visit_str` (`quantity.rs` lines 51-59):
`BigUint::from_str_radix(data, 10)`, which strips a single leading `+` (not
followed by another `+`), fails on the empty remainder and on a leading
underscore, and then parses base-10 digits, skipping embedded underscores. -/
def quantVisitStr (s : List Char) : Option Nat :=
  match stripPlus s with
  | [] => none
  | c :: rest => if c = '_' then none else parseDecAux (c :: rest) 0

/-- A valid base-10 numeral: non-empty and all characters are ASCII digits. -/
def isDecimalNumeral (s : List Char) : Prop :=
  s ≠ [] ∧ ∀ c ∈ s, c.isDigit = true

instance (s : List Char) : Decidable (isDecimalNumeral s) := by
  unfold isDecimalNumeral; infer_instance

/-- The exact success set of `from_str_radix(_, 10)`: after stripping a
single leading `+` (not followed by another `+`), the remainder is non-empty,
does not start with an underscore, and contains only ASCII digits and
underscores. -/
def isAcceptedNumeral (s : List Char) : Prop :=
  stripPlus s ≠ [] ∧ (stripPlus s).head? ≠ some '_' ∧
    ∀ c ∈ stripPlus s, c.isDigit = true ∨ c = '_'

instance (s : List Char) : Decidable (isAcceptedNumeral s) := by
  unfold isAcceptedNumeral; infer_instance

end Quantity

namespace Scheduler

/-- Modelled from the spec: the contract descriptor held by the registry
(spec §3 "Contract"); the registry implementation is not in this source tree.
Only the fields the scheduler reads are carried. -/
structure ContractDesc where
  replicaGroupSize : Nat
  storageGroupSize : Nat
deriving DecidableEq, Repr

/-- Modelled from the spec: a registry snapshot (spec §6): registered contract
descriptors keyed by contract id, and the set of registered entity public
keys (entities as `Nat` identities). -/
structure RegistrySnapshot where
  contracts : List (Nat × ContractDesc)
  entities : List Nat
deriving DecidableEq, Repr

/-- Modelled from the spec: a committee (spec §3 "Committee"): an ordered
compute-replica group and a storage group. -/
structure Committee where
  replicaGroup : List Nat
  storageGroup : List Nat
deriving DecidableEq, Repr

inductive SchedulerError where
  | UnknownContract
deriving DecidableEq, Repr

/-- Modelled from the spec: one step of the deterministic pseudo-random
permutation generator (spec §4.2, §9: "a hash-based DRBG keyed by the epoch
randomness and contract id"); a 64-bit linear congruential mix. -/
def mix (seed n : Nat) : Nat :=
  (seed * 6364136223846793005 + n * 1442695040888963407 + 1013904223) % (2 ^ 64)

/-- Modelled from the spec: draw `k` elements without replacement from `pool`,
choices driven by the deterministic generator state `seed`; exhausts
gracefully (returns fewer) when the pool runs out (spec §4.2 step 4).
Returns the drawn elements and the remaining pool. -/
def drawFrom : Nat → Nat → List Nat → List Nat × List Nat
  | _, 0, pool => ([], pool)
  | seed, k + 1, pool =>
      if h : pool = [] then ([], pool)
      else
        have hp : 0 < pool.length := List.length_pos.mpr h
        let i := seed % pool.length
        let x := pool.get ⟨i, Nat.mod_lt _ hp⟩
        let rest := pool.eraseIdx i
        let next := drawFrom (mix seed x) k rest
        (x :: next.1, next.2)

/-- Modelled from the spec: `get_committee(contract_id, epoch)` (spec §4.2):
fetch the contract descriptor (`UnknownContract` if absent), seed the
deterministic generator with the beacon randomness for the epoch
domain-separated by the contract id, draw the compute-replica group then the
storage group without replacement from the registered entities. -/
def getCommittee (contractId : Nat) (epoch : Nat) (reg : RegistrySnapshot)
    (beaconValue : Nat) : Except SchedulerError Committee :=
  match (reg.contracts.find? (fun p => p.fst == contractId)).map Prod.snd with
  | none => Except.error SchedulerError.UnknownContract
  | some desc =>
      let seed := mix (mix beaconValue epoch) contractId
      let rep := drawFrom seed desc.replicaGroupSize reg.entities
      let sto := drawFrom (mix seed 1) desc.storageGroupSize rep.2
      Except.ok { replicaGroup := rep.1, storageGroup := sto.1 }

end Scheduler

namespace Consensus

/-- Modelled from the spec: a block header (spec §3 "Block"): contract
identifier, round number, state root hash, previous block hash.  Hash values
are embedded as `Nat`. -/
structure Header where
  contractId : Nat
  round : Nat
  stateRoot : Nat
  prevBlockHash : Nat
deriving DecidableEq, Repr

/-- Modelled from the spec: a block (spec §3): header plus the per-node
submissions that justified it, keyed by submitter identity. -/
structure Block where
  header : Header
  submissions : List (Nat × List Nat)
deriving DecidableEq, Repr

/-- Modelled from the spec: the consensus error taxonomy (spec §4.3, §7). -/
inductive ConsensusError where
  | NotCommitteeMember
  | StaleRound
  | UnknownContract
  | StorageFailure
deriving DecidableEq, Repr

/-- Modelled from the spec: the per-contract state owned by the consensus
backend (spec §4.3): the compute-replica committee for the open round, the
submissions collected so far, the append-only chain of finalized blocks
(genesis first), and whether `shutdown()` was issued.  The
`DummyConsensusBackend` implementation is not in this source tree. -/
structure BackendState where
  committee : List Nat
  collected : List (Nat × List Nat)
  chain : List Block
  isShutdown : Bool
deriving DecidableEq, Repr

/-- The round currently open for submissions: rounds `0 .. chain.length - 1`
are finalized (round 0 is genesis), so the open round is `chain.length`. -/
def openRound (s : BackendState) : Nat :=
  s.chain.length

/-- Modelled from the spec: record a submission keyed by submitter identity,
overwriting any prior submission from the same identity (last-write-wins,
spec §4.3). -/
def recordSubmission (c : List (Nat × List Nat)) (id : Nat) (v : List Nat) :
    List (Nat × List Nat) :=
  c.filter (fun p => p.fst != id) ++ [(id, v)]

/-- Look up the recorded submission of one identity. -/
def lookupSub (c : List (Nat × List Nat)) (id : Nat) : Option (List Nat) :=
  (c.find? (fun p => p.fst == id)).map Prod.snd

/-- Modelled from the spec: `submit_computation` (spec §4.3, §6): after
shutdown an in-flight submission is discarded; a submitter outside the
current committee is rejected with `NotCommitteeMember`; a submission for a
round other than the open round is rejected with `StaleRound`; otherwise the
submission is recorded last-write-wins.  A rejection returns only the error,
so it leaves no successor state. -/
def submit (s : BackendState) (submitter round : Nat) (v : List Nat) :
    Except ConsensusError BackendState :=
  if s.isShutdown then Except.ok s
  else if submitter ∈ s.committee then
    if round = openRound s then
      Except.ok { s with collected := recordSubmission s.collected submitter v }
    else Except.error ConsensusError.StaleRound
  else Except.error ConsensusError.NotCommitteeMember

/-- Every compute-replica committee member has a recorded submission
(spec §4.3 finalization trigger). -/
def allCollected (s : BackendState) : Bool :=
  s.committee.all (fun m => (lookupSub s.collected m).isSome)

/-- The agreed result of a round: defined when the collected submission set
is non-empty and all submitted values coincide (the single-writer determinism
assumption of spec §4.3). -/
def agreedValue (c : List (Nat × List Nat)) : Option (List Nat) :=
  match c with
  | [] => none
  | (_, v) :: rest => if rest.all (fun p => p.snd == v) then some v else none

/-- Modelled from the spec: round finalization (spec §4.3): when all
committee members have submitted and the submissions agree, store the agreed
state blob (its content hash `contentHash v` becomes `state_root`), build the
block with `round = previous round + 1` and `previous_block_hash` the hash of
the last finalized block, append it to the chain, and open the next round.
Returns `none` when the trigger condition does not hold (or after
shutdown). -/
def finalize (contentHash : List Nat → Nat) (blockHash : Block → Nat)
    (s : BackendState) : Option BackendState :=
  match s.isShutdown, s.chain.getLast?, allCollected s, agreedValue s.collected with
  | false, some prev, true, some v =>
      some { s with
        chain := s.chain ++
          [{ header :=
               { contractId := prev.header.contractId,
                 round := prev.header.round + 1,
                 stateRoot := contentHash v,
                 prevBlockHash := blockHash prev },
             submissions := s.collected }],
        collected := [] }
  | _, _, _, _ => none

/-- Modelled from the spec: `shutdown()` (spec §4.3): transition to the
shutdown state; in-flight submissions are discarded; idempotent. -/
def doShutdown (s : BackendState) : BackendState :=
  { s with isShutdown := true, collected := [] }

/-- Modelled from the spec: the genesis block (spec §3, §6): round 0, state
root the content hash of the empty byte sequence, produced before any
submissions are accepted. -/
def genesisBlock (contentHash : List Nat → Nat) (cid : Nat) : Block :=
  { header :=
      { contractId := cid, round := 0, stateRoot := contentHash [],
        prevBlockHash := 0 },
    submissions := [] }

/-- Modelled from the spec: the canonical empty-state hash: the content hash
of the empty byte sequence (spec §6, §8). -/
def emptyStateHash (contentHash : List Nat → Nat) : Nat :=
  contentHash []

/-- Modelled from the spec: the backend's initial per-contract state
(spec §4.3: initial state `Idle(0)` with the genesis block on the chain),
seeded with the scheduled committee. -/
def initState (contentHash : List Nat → Nat) (cid : Nat)
    (committee : List Nat) : BackendState :=
  { committee := committee, collected := [],
    chain := [genesisBlock contentHash cid], isShutdown := false }

/-- One observable step of the backend: a successful submission, a
finalization, or a shutdown. -/
inductive Step (contentHash : List Nat → Nat) (blockHash : Block → Nat) :
    BackendState → BackendState → Prop
  | submitOk (s : BackendState) (a r : Nat) (v : List Nat) (s' : BackendState) :
      submit s a r v = Except.ok s' → Step contentHash blockHash s s'
  | finalizeOk (s s' : BackendState) :
      finalize contentHash blockHash s = some s' → Step contentHash blockHash s s'
  | shutdownStep (s : BackendState) : Step contentHash blockHash s (doShutdown s)

/-- States reachable from the initial state of a contract. -/
def Reachable (contentHash : List Nat → Nat) (blockHash : Block → Nat)
    (cid : Nat) (committee : List Nat) (s : BackendState) : Prop :=
  Relation.ReflTransGen (Step contentHash blockHash)
    (initState contentHash cid committee) s

/-- The hash-chaining relation between a block and its successor
(spec §3 internal consistency): the successor records the predecessor's hash,
increments the round, and its state root is recomputable as the content hash
of its agreed recorded submissions. -/
def linkOK (contentHash : List Nat → Nat) (blockHash : Block → Nat)
    (p b : Block) : Prop :=
  b.header.prevBlockHash = blockHash p ∧
  b.header.round = p.header.round + 1 ∧
  ∃ v, agreedValue b.submissions = some v ∧ b.header.stateRoot = contentHash v

/-- Every adjacent pair of blocks on the chain is correctly linked. -/
def goodChain (contentHash : List Nat → Nat) (blockHash : Block → Nat)
    (chain : List Block) : Prop :=
  ∀ i (h : i + 1 < chain.length),
    linkOK contentHash blockHash (chain.get ⟨i, Nat.lt_of_succ_lt h⟩)
      (chain.get ⟨i + 1, h⟩)

/-- The block at chain position `i` carries round number `i`. -/
def roundsIndexed (chain : List Block) : Prop :=
  ∀ i (h : i < chain.length), (chain.get ⟨i, h⟩).header.round = i

/-- The chain invariant maintained by the backend: a non-empty chain whose
`i`-th block carries round `i` and whose adjacent blocks are correctly
hash-linked with recomputable state roots. -/
def Inv (contentHash : List Nat → Nat) (blockHash : Block → Nat)
    (s : BackendState) : Prop :=
  s.chain ≠ [] ∧ roundsIndexed s.chain ∧ goodChain contentHash blockHash s.chain

/-- The byte sequence `"hello world fake state"` submitted by every node for
the first compute round of the end-to-end scenario
(`tests/backend.rs` line 112). -/
def helloBytes : List Nat :=
  [104, 101, 108, 108, 111, 32, 119, 111, 114, 108, 100, 32,
   102, 97, 107, 101, 32, 115, 116, 97, 116, 101]

/-- The fixed, reproducible state root the scenario expects for the first
compute round (`tests/backend.rs` lines 125-130). -/
def fixedHelloStateRoot : Nat :=
  0x960b1a85d1de064664429c26be6f23f40004f01f9323a6c0da0ca4d310eb69ba

/-- Submit the same value for round `r` on behalf of each member of `ms` in
order, stopping at the first rejection. -/
def submitAllM : List Nat → Nat → List Nat → BackendState →
    Except ConsensusError BackendState
  | [], _, _, s => Except.ok s
  | m :: rest, r, v, s =>
      match submit s m r v with
      | Except.error e => Except.error e
      | Except.ok s' => submitAllM rest r v s'

/-- One full scenario round: every committee member submits `v` for the open
round, then the backend finalizes. -/
def runRound (contentHash : List Nat → Nat) (blockHash : Block → Nat)
    (v : List Nat) (s : BackendState) : Option BackendState :=
  match submitAllM s.committee (openRound s) v s with
  | Except.error _ => none
  | Except.ok s' => finalize contentHash blockHash s'

/-- The round-1 block of the end-to-end scenario: all three nodes submitted
`helloBytes`. -/
def scenarioBlock1 (contentHash : List Nat → Nat) (blockHash : Block → Nat) :
    Block :=
  { header :=
      { contractId := 7, round := 1, stateRoot := contentHash helloBytes,
        prevBlockHash := blockHash (genesisBlock contentHash 7) },
    submissions := [(0, helloBytes), (1, helloBytes), (2, helloBytes)] }

/-- Backend state after the first scenario round. -/
def scenarioS1 (contentHash : List Nat → Nat) (blockHash : Block → Nat) :
    BackendState :=
  { committee := [0, 1, 2], collected := [],
    chain := [genesisBlock contentHash 7, scenarioBlock1 contentHash blockHash],
    isShutdown := false }

/-- The round-2 block of the end-to-end scenario: all three nodes submitted
the empty byte sequence. -/
def scenarioBlock2 (contentHash : List Nat → Nat) (blockHash : Block → Nat) :
    Block :=
  { header :=
      { contractId := 7, round := 2, stateRoot := contentHash [],
        prevBlockHash := blockHash (scenarioBlock1 contentHash blockHash) },
    submissions := [(0, []), (1, []), (2, [])] }

/-- Backend state after the second scenario round. -/
def scenarioS2 (contentHash : List Nat → Nat) (blockHash : Block → Nat) :
    BackendState :=
  { committee := [0, 1, 2], collected := [],
    chain := [genesisBlock contentHash 7, scenarioBlock1 contentHash blockHash,
      scenarioBlock2 contentHash blockHash],
    isShutdown := false }

/-- The end-to-end scenario of `test_dummy_backend_two_rounds`: three nodes in
the committee, a round of `helloBytes` submissions, a round of empty
submissions, then shutdown. -/
def scenarioRun (contentHash : List Nat → Nat) (blockHash : Block → Nat) :
    Option BackendState :=
  match runRound contentHash blockHash helloBytes (initState contentHash 7 [0, 1, 2]) with
  | none => none
  | some s1 =>
      match runRound contentHash blockHash [] s1 with
      | none => none
      | some s2 => some (doShutdown s2)

end Consensus

/-- A trivial content-hash function used to instantiate witnesses. -/
def cH0 : List Nat → Nat := fun _ => 0

/-- A trivial block-hash function used to instantiate witnesses. -/
def bH0 : Consensus.Block → Nat := fun _ => 0

/-- A content-hash function pinned at the scenario's fixed state root. -/
def cHFix : List Nat → Nat :=
  fun bs => if bs = Consensus.helloBytes then Consensus.fixedHelloStateRoot else 0

/-- Initial demo state: contract 7, committee `[0, 1, 2]`. -/
def demoInit : Consensus.BackendState := Consensus.initState cH0 7 [0, 1, 2]

/-- Demo state after node 0 submits the empty sequence for round 1. -/
def demoSubA : Consensus.BackendState :=
  { committee := [0, 1, 2], collected := [(0, [])],
    chain := [Consensus.genesisBlock cH0 7], isShutdown := false }

/-- Demo state after nodes 0 and 1 submit. -/
def demoSubB : Consensus.BackendState :=
  { committee := [0, 1, 2], collected := [(0, []), (1, [])],
    chain := [Consensus.genesisBlock cH0 7], isShutdown := false }

/-- Demo state after all three nodes submit. -/
def demoSubC : Consensus.BackendState :=
  { committee := [0, 1, 2], collected := [(0, []), (1, []), (2, [])],
    chain := [Consensus.genesisBlock cH0 7], isShutdown := false }

/-- The block finalized from the demo submissions. -/
def demoBlock1 : Consensus.Block :=
  { header :=
      { contractId := 7, round := 1, stateRoot := cH0 [],
        prevBlockHash := bH0 (Consensus.genesisBlock cH0 7) },
    submissions := [(0, []), (1, []), (2, [])] }

/-- Demo state after finalizing round 1. -/
def demoState2 : Consensus.BackendState :=
  { committee := [0, 1, 2], collected := [],
    chain := [Consensus.genesisBlock cH0 7, demoBlock1], isShutdown := false }

/-- Demo state after a first submission by node 0 with value `[1]`. -/
def demoResub1 : Consensus.BackendState :=
  { committee := [0, 1, 2],
    collected := Consensus.recordSubmission [] 0 [1],
    chain := [Consensus.genesisBlock cH0 7], isShutdown := false }

/-- Demo state after node 0 resubmits with value `[2]`. -/
def demoResub2 : Consensus.BackendState :=
  { committee := [0, 1, 2],
    collected := Consensus.recordSubmission (Consensus.recordSubmission [] 0 [1]) 0 [2],
    chain := [Consensus.genesisBlock cH0 7], isShutdown := false }

namespace Quantity

lemma bytesBEAux_zero (fuel : Nat) : bytesBEAux fuel 0 = [] := by
  cases fuel <;> rfl

lemma bytesBEAux_irrel :
    ∀ fuel fuel' n, n ≤ fuel → n ≤ fuel' →
      bytesBEAux fuel n = bytesBEAux fuel' n := by
  intro fuel
  induction fuel with
  | zero =>
      intro fuel' n hn _
      interval_cases n
      simp [bytesBEAux_zero]
  | succ f ih =>
      intro fuel' n hn hn'
      cases n with
      | zero => simp [bytesBEAux_zero]
      | succ m =>
          cases fuel' with
          | zero => omega
          | succ f' =>
              show bytesBEAux f ((m + 1) / 256) ++ [(m + 1) % 256]
                  = bytesBEAux f' ((m + 1) / 256) ++ [(m + 1) % 256]
              have hlt : (m + 1) / 256 < m + 1 :=
                Nat.div_lt_self (Nat.succ_pos m) (by norm_num)
              rw [ih f' ((m + 1) / 256) (by omega) (by omega)]

lemma quantFromBytes_append_one (l : List Nat) (b : Nat) :
    quantFromBytes (l ++ [b]) = quantFromBytes l * 256 + b := by
  unfold quantFromBytes
  rw [List.foldl_append]
  rfl

lemma quantFromBytes_bytesBEAux :
    ∀ fuel n, n ≤ fuel → quantFromBytes (bytesBEAux fuel n) = n := by
  intro fuel
  induction fuel with
  | zero =>
      intro n hn
      interval_cases n
      simp [bytesBEAux_zero, quantFromBytes]
  | succ f ih =>
      intro n hn
      cases n with
      | zero => simp [bytesBEAux_zero, quantFromBytes]
      | succ m =>
          show quantFromBytes (bytesBEAux f ((m + 1) / 256) ++ [(m + 1) % 256]) = m + 1
          have hlt : (m + 1) / 256 < m + 1 :=
            Nat.div_lt_self (Nat.succ_pos m) (by norm_num)
          rw [quantFromBytes_append_one, ih ((m + 1) / 256) (by omega)]
          omega

lemma quantToBytes_roundTrip (n : Nat) : quantFromBytes (quantToBytes n) = n := by
  unfold quantToBytes
  by_cases h : n = 0
  · simp [h, quantFromBytes]
  · rw [if_neg h]
    exact quantFromBytes_bytesBEAux n n le_rfl

lemma bytesBEAux_head_ne_zero :
    ∀ fuel n, n ≤ fuel → n ≠ 0 →
      ∃ h t, bytesBEAux fuel n = h :: t ∧ h ≠ 0 := by
  intro fuel
  induction fuel with
  | zero => intro n hn h0; omega
  | succ f ih =>
      intro n hn h0
      cases n with
      | zero => omega
      | succ m =>
          show ∃ h t, bytesBEAux f ((m + 1) / 256) ++ [(m + 1) % 256] = h :: t ∧ h ≠ 0
          by_cases hq : (m + 1) / 256 = 0
          · have hm : m + 1 < 256 := by
              rcases Nat.lt_or_ge (m + 1) 256 with h | h
              · exact h
              · exfalso; have := Nat.div_le_div_right (c := 256) h; simp at this; omega
            refine ⟨(m + 1) % 256, [], ?_, ?_⟩
            · rw [hq, bytesBEAux_zero]; rfl
            · rw [Nat.mod_eq_of_lt hm]; omega
          · have hlt : (m + 1) / 256 < m + 1 :=
              Nat.div_lt_self (Nat.succ_pos m) (by norm_num)
            obtain ⟨h, t, heq, hne⟩ := ih ((m + 1) / 256) (by omega) hq
            exact ⟨h, t ++ [(m + 1) % 256], by rw [heq]; rfl, hne⟩

lemma parseDecAux_isSome :
    ∀ s acc, (parseDecAux s acc).isSome = true
      ↔ ∀ c ∈ s, c.isDigit = true ∨ c = '_' := by
  intro s
  induction s with
  | nil => intro acc; simp [parseDecAux]
  | cons c cs ih =>
      intro acc
      by_cases hc : c.isDigit = true
      · simp [parseDecAux, hc, ih]
      · by_cases hu : c = '_'
        · simp [parseDecAux, hc, hu, ih]
        · simp [parseDecAux, hc, hu]

end Quantity

/-- C9: Quantity CBOR serialization round-trips at the value level: for every
value `v` (in particular every u64), deserializing the serialization of
`Quantity::from(v)` yields a Quantity equal to `Quantity::from(v)`; in the
non-human-readable encoding, zero serializes as the empty byte string and
every non-zero value serializes as its minimal big-endian byte representation
(non-empty, leading byte non-zero). -/
theorem quantity_serialization_roundtrip (v : Nat) :
    Quantity.quantFromBytes (Quantity.quantToBytes v) = v ∧
    (Quantity.quantToBytes v = [] ↔ v = 0) ∧
    (v ≠ 0 → ∃ h t, Quantity.quantToBytes v = h :: t ∧ h ≠ 0) := by
  refine ⟨Quantity.quantToBytes_roundTrip v, ?_, ?_⟩
  · constructor
    · intro hempty
      have := Quantity.quantToBytes_roundTrip v
      rw [hempty] at this
      simpa [Quantity.quantFromBytes] using this.symm
    · intro hv; simp [Quantity.quantToBytes, hv]
  · intro hv
    unfold Quantity.quantToBytes
    rw [if_neg hv]
    exact Quantity.bytesBEAux_head_ne_zero v v le_rfl hv

/-- Witness for C9 at a concrete input. -/
theorem quantity_serialization_roundtrip_witness :
    Quantity.quantFromBytes (Quantity.quantToBytes 1000) = 1000 ∧
    (Quantity.quantToBytes 1000 = [] ↔ (1000 : Nat) = 0) ∧
    (∃ h t, Quantity.quantToBytes 1000 = h :: t ∧ h ≠ 0) :=
  ⟨(quantity_serialization_roundtrip 1000).1,
   (quantity_serialization_roundtrip 1000).2.1,
   (quantity_serialization_roundtrip 1000).2.2 (by decide)⟩

/-- C10 counterexample: the claim "string deserialization fails exactly when
the input is not a valid base-10 numeral" is false of the program:
`from_str_radix` accepts `"+1"` (leading `+` stripped) and `"1_0"` (embedded
underscore skipped), neither of which is a valid base-10 numeral. -/
theorem quantity_string_parse_counterexample :
    (Quantity.quantVisitStr ['+', '1']).isSome = true ∧
    ¬ Quantity.isDecimalNumeral ['+', '1'] ∧
    Quantity.quantVisitStr ['1', '_', '0'] = some 10 ∧
    ¬ Quantity.isDecimalNumeral ['1', '_', '0'] := by decide

/-- C10 (amended): Quantity deserialization from bytes never fails —
`visit_bytes` maps every byte sequence, including non-canonical ones with
leading zeros, to a Quantity — so distinct byte strings can decode to equal
Quantities and the byte-level round trip `serialize (deserialize b) = b`
fails for some `b`; string deserialization succeeds exactly when, after
stripping a single leading `+` not followed by another `+`, the input is
non-empty, does not start with an underscore, and contains only base-10
digits and underscores. -/
theorem quantity_deserialize_total :
    (∀ bs, ∃ q, Quantity.quantVisitBytes bs = Except.ok q) ∧
    (Quantity.quantFromBytes [0, 1] = Quantity.quantFromBytes [1] ∧
      ([0, 1] : List Nat) ≠ [1]) ∧
    Quantity.quantToBytes (Quantity.quantFromBytes [0, 1]) ≠ [0, 1] ∧
    (∀ s, (Quantity.quantVisitStr s).isSome = true
      ↔ Quantity.isAcceptedNumeral s) := by
  refine ⟨fun bs => ⟨Quantity.quantFromBytes bs, rfl⟩, ⟨by decide, by decide⟩,
    by decide, ?_⟩
  intro s
  unfold Quantity.quantVisitStr Quantity.isAcceptedNumeral
  cases hsp : Quantity.stripPlus s with
  | nil => simp
  | cons c rest =>
      by_cases hc : c = '_'
      · subst hc; simp
      · simp [Quantity.parseDecAux_isSome, hc]

/-- C6: committee scheduling is deterministic: for every tuple (contract id,
epoch, registry snapshot, beacon randomness), any two independent invocations
of the scheduler's `get_committee` on equal inputs produce bit-for-bit
identical committees.  In this pure embedding the scheduler is a function of
exactly those four inputs and nothing else, so determinism is structural. -/
theorem scheduler_deterministic (cid epoch : Nat) (reg : Scheduler.RegistrySnapshot)
    (beaconValue : Nat) (cid' epoch' : Nat) (reg' : Scheduler.RegistrySnapshot)
    (beaconValue' : Nat) (h1 : cid = cid') (h2 : epoch = epoch')
    (h3 : reg = reg') (h4 : beaconValue = beaconValue') :
    Scheduler.getCommittee cid epoch reg beaconValue
      = Scheduler.getCommittee cid' epoch' reg' beaconValue' := by
  rw [h1, h2, h3, h4]

/-- Witness for C6: two invocations at a concrete input tuple agree (and the
committee is computable there). -/
theorem scheduler_deterministic_witness :
    Scheduler.getCommittee 5 0
        { contracts := [(5, { replicaGroupSize := 3, storageGroupSize := 3 })],
          entities := [10, 11, 12, 13] } 42
      = Scheduler.getCommittee 5 0
        { contracts := [(5, { replicaGroupSize := 3, storageGroupSize := 3 })],
          entities := [10, 11, 12, 13] } 42 :=
  scheduler_deterministic 5 0
    { contracts := [(5, { replicaGroupSize := 3, storageGroupSize := 3 })],
      entities := [10, 11, 12, 13] } 42 5 0
    { contracts := [(5, { replicaGroupSize := 3, storageGroupSize := 3 })],
      entities := [10, 11, 12, 13] } 42 rfl rfl rfl rfl

namespace Consensus

lemma submit_ok_frame {s s' : BackendState} {a r : Nat} {v : List Nat}
    (h : submit s a r v = Except.ok s') :
    s'.chain = s.chain ∧ s'.committee = s.committee ∧
      s'.isShutdown = s.isShutdown := by
  unfold submit at h
  split_ifs at h with h1 h2 h3
  · cases h; exact ⟨rfl, rfl, rfl⟩
  · cases h; exact ⟨rfl, rfl, rfl⟩

lemma finalize_some_spec {contentHash : List Nat → Nat} {blockHash : Block → Nat}
    {s s' : BackendState} (h : finalize contentHash blockHash s = some s') :
    s.isShutdown = false ∧
    ∃ prev v, s.chain.getLast? = some prev ∧
      agreedValue s.collected = some v ∧
      s'.chain = s.chain ++
        [{ header :=
             { contractId := prev.header.contractId,
               round := prev.header.round + 1,
               stateRoot := contentHash v,
               prevBlockHash := blockHash prev },
           submissions := s.collected }] ∧
      s'.committee = s.committee ∧ s'.isShutdown = false := by
  unfold finalize at h
  split at h
  · next prev v hshut hlast hall hagree =>
      simp only [Option.some.injEq] at h
      subst h
      exact ⟨hshut, prev, v, hlast, hagree, rfl, rfl, hshut⟩
  · simp at h

lemma getLast?_get :
    ∀ (chain : List Block) (prev : Block), chain.getLast? = some prev →
      ∃ hlen : chain.length - 1 < chain.length,
        chain.get ⟨chain.length - 1, hlen⟩ = prev := by
  intro chain
  induction chain with
  | nil => intro prev h; exact absurd h (by simp)
  | cons a l ih =>
      intro prev h
      cases l with
      | nil =>
          simp at h
          subst h
          exact ⟨by simp, rfl⟩
      | cons b t =>
          rw [List.getLast?_cons_cons] at h
          obtain ⟨hlen, hget⟩ := ih prev h
          refine ⟨by simp, ?_⟩
          have hshape : (a :: b :: t).length - 1 = ((b :: t).length - 1) + 1 := by
            simp
          have : (a :: b :: t).get ⟨((b :: t).length - 1) + 1, by simp⟩
              = (b :: t).get ⟨(b :: t).length - 1, hlen⟩ := rfl
          simp only [hshape]
          exact this.trans hget

lemma get_append_left' (l : List Block) (b : Block) (i : Nat)
    (h : i < l.length) (h' : i < (l ++ [b]).length) :
    (l ++ [b]).get ⟨i, h'⟩ = l.get ⟨i, h⟩ := by
  rw [List.get_eq_getElem, List.get_eq_getElem]
  exact List.getElem_append_left h

lemma get_append_length (l : List Block) (b : Block)
    (h : l.length < (l ++ [b]).length) :
    (l ++ [b]).get ⟨l.length, h⟩ = b := by
  rw [List.get_eq_getElem]
  simp

lemma roundsIndexed_append {chain : List Block} {b : Block}
    (h : roundsIndexed chain) (hb : b.header.round = chain.length) :
    roundsIndexed (chain ++ [b]) := by
  intro i hi
  by_cases hlt : i < chain.length
  · rw [get_append_left' chain b i hlt hi]
    exact h i hlt
  · have hi' : i = chain.length := by
      simp [List.length_append] at hi; omega
    subst hi'
    rw [get_append_length chain b hi]
    exact hb

lemma goodChain_append {contentHash : List Nat → Nat} {blockHash : Block → Nat}
    {chain : List Block} {b prev : Block}
    (hg : goodChain contentHash blockHash chain)
    (hl : chain.getLast? = some prev)
    (hlink : linkOK contentHash blockHash prev b) :
    goodChain contentHash blockHash (chain ++ [b]) := by
  intro i hi
  by_cases hcase : i + 1 < chain.length
  · rw [get_append_left' chain b (i + 1) hcase hi,
      get_append_left' chain b i (Nat.lt_of_succ_lt hcase) (Nat.lt_of_succ_lt hi)]
    exact hg i hcase
  · have hlen : i + 1 = chain.length := by
      simp [List.length_append] at hi; omega
    obtain ⟨hprevlt, hprevget⟩ := getLast?_get chain prev hl
    have hi1 : (chain ++ [b]).get ⟨i + 1, hi⟩ = b := by
      have hfin : (⟨i + 1, hi⟩ : Fin (chain ++ [b]).length)
          = ⟨chain.length, by simp⟩ := Fin.ext hlen
      rw [hfin, get_append_length]
    have hi0 : (chain ++ [b]).get ⟨i, Nat.lt_of_succ_lt hi⟩ = prev := by
      have hilt : i < chain.length := by omega
      rw [get_append_left' chain b i hilt (Nat.lt_of_succ_lt hi)]
      have : i = chain.length - 1 := by omega
      subst this
      exact hprevget
    rw [hi1, hi0]
    exact hlink

lemma inv_init (contentHash : List Nat → Nat) (blockHash : Block → Nat)
    (cid : Nat) (committee : List Nat) :
    Inv contentHash blockHash (initState contentHash cid committee) := by
  refine ⟨by simp [initState], ?_, ?_⟩
  · intro i h
    simp [initState] at h
    subst h
    rfl
  · intro i h
    simp [initState] at h

lemma inv_step {contentHash : List Nat → Nat} {blockHash : Block → Nat}
    {s s' : BackendState} (hInv : Inv contentHash blockHash s)
    (hs : Step contentHash blockHash s s') : Inv contentHash blockHash s' := by
  obtain ⟨hne, hrounds, hgood⟩ := hInv
  cases hs with
  | submitOk a r v s₂ h =>
      obtain ⟨hc, -, -⟩ := submit_ok_frame h
      rw [Inv, hc]
      exact ⟨hne, hrounds, hgood⟩
  | finalizeOk s₂ h =>
      obtain ⟨-, prev, v, hlast, hagree, hchain, -, -⟩ := finalize_some_spec h
      obtain ⟨hprevlt, hprevget⟩ := getLast?_get s.chain prev hlast
      have hprevround : prev.header.round = s.chain.length - 1 := by
        rw [← hprevget]
        exact hrounds _ hprevlt
      have hlenpos : 0 < s.chain.length := List.length_pos.mpr hne
      refine ⟨?_, ?_, ?_⟩
      · rw [hchain]; simp
      · rw [hchain]
        exact roundsIndexed_append hrounds (by simp [hprevround]; omega)
      · rw [hchain]
        exact goodChain_append hgood hlast ⟨rfl, rfl, v, hagree, rfl⟩
  | shutdownStep =>
      exact ⟨hne, hrounds, hgood⟩

lemma inv_reachable {contentHash : List Nat → Nat} {blockHash : Block → Nat}
    {cid : Nat} {committee : List Nat} {s : BackendState}
    (h : Reachable contentHash blockHash cid committee s) :
    Inv contentHash blockHash s := by
  induction h with
  | refl => exact inv_init contentHash blockHash cid committee
  | tail hsteps hstep ih => exact inv_step ih hstep

lemma runRound_hello (contentHash : List Nat → Nat) (blockHash : Block → Nat) :
    runRound contentHash blockHash helloBytes (initState contentHash 7 [0, 1, 2])
      = some (scenarioS1 contentHash blockHash) := rfl

lemma runRound_empty (contentHash : List Nat → Nat) (blockHash : Block → Nat) :
    runRound contentHash blockHash [] (scenarioS1 contentHash blockHash)
      = some (scenarioS2 contentHash blockHash) := rfl

lemma scenarioRun_eq (contentHash : List Nat → Nat) (blockHash : Block → Nat) :
    scenarioRun contentHash blockHash
      = some (doShutdown (scenarioS2 contentHash blockHash)) := rfl

lemma step_shutdown_frozen {contentHash : List Nat → Nat} {blockHash : Block → Nat}
    {s s' : BackendState} (hs : s.isShutdown = true)
    (h : Step contentHash blockHash s s') :
    s'.chain = s.chain ∧ s'.isShutdown = true := by
  cases h with
  | submitOk a r v s₂ hsub =>
      unfold submit at hsub
      rw [if_pos hs] at hsub
      simp only [Except.ok.injEq] at hsub
      subst hsub
      exact ⟨rfl, hs⟩
  | finalizeOk s₂ hfin =>
      unfold finalize at hfin
      rw [hs] at hfin
      simp at hfin
  | shutdownStep => exact ⟨rfl, rfl⟩

lemma rtg_shutdown_frozen {contentHash : List Nat → Nat} {blockHash : Block → Nat}
    {s s' : BackendState} (hs : s.isShutdown = true)
    (h : Relation.ReflTransGen (Step contentHash blockHash) s s') :
    s'.chain = s.chain ∧ s'.isShutdown = true := by
  induction h with
  | refl => exact ⟨rfl, hs⟩
  | tail hsteps hstep ih =>
      obtain ⟨hc, hsd⟩ := ih
      obtain ⟨hc2, hsd2⟩ := step_shutdown_frozen hsd hstep
      exact ⟨hc2.trans hc, hsd2⟩

lemma submit_ok_eq {s : BackendState} {a r : Nat} {v : List Nat}
    (hns : s.isShutdown = false) (hm : a ∈ s.committee) (hr : r = openRound s) :
    submit s a r v
      = Except.ok { s with collected := recordSubmission s.collected a v } := by
  unfold submit
  rw [if_neg (by simp [hns]), if_pos hm, if_pos hr]

lemma submit_ok_collected {s s' : BackendState} {a r : Nat} {v : List Nat}
    (h : submit s a r v = Except.ok s') :
    s'.collected = s.collected ∨
      s'.collected = recordSubmission s.collected a v := by
  unfold submit at h
  split_ifs at h with h1 h2 h3
  · cases h; exact Or.inl rfl
  · cases h; exact Or.inr rfl

lemma countP_recordSubmission (c : List (Nat × List Nat)) (id : Nat)
    (v : List Nat) :
    (recordSubmission c id v).countP (fun p => p.fst == id) = 1 := by
  unfold recordSubmission
  rw [List.countP_append]
  have h0 : (c.filter (fun p => p.fst != id)).countP (fun p => p.fst == id) = 0 := by
    rw [List.countP_eq_zero]
    intro p hp
    have hne := (List.mem_filter.mp hp).2
    simp at hne ⊢
    exact hne
  rw [h0]
  simp [List.countP_cons]

lemma lookupSub_recordSubmission (c : List (Nat × List Nat)) (id : Nat)
    (v : List Nat) :
    lookupSub (recordSubmission c id v) id = some v := by
  unfold lookupSub recordSubmission
  rw [List.find?_append]
  have h0 : (c.filter (fun p => p.fst != id)).find? (fun p => p.fst == id) = none := by
    rw [List.find?_eq_none]
    intro p hp
    have hne := (List.mem_filter.mp hp).2
    simp at hne ⊢
    exact hne
  rw [h0]
  simp [List.find?]

lemma recordSubmission_all_value {c : List (Nat × List Nat)} {id : Nat}
    {v : List Nat} (h : ∀ p ∈ c, p.snd = v) :
    ∀ p ∈ recordSubmission c id v, p.snd = v := by
  intro p hp
  unfold recordSubmission at hp
  rcases List.mem_append.mp hp with hp | hp
  · exact h p (List.mem_filter.mp hp).1
  · simp at hp
    rw [hp]

lemma submitAllM_sound :
    ∀ (ms : List Nat) (r : Nat) (v : List Nat) (s s' : BackendState),
      (∀ p ∈ s.collected, p.snd = v) →
      submitAllM ms r v s = Except.ok s' →
      (∀ p ∈ s'.collected, p.snd = v) ∧ s'.chain = s.chain := by
  intro ms
  induction ms with
  | nil =>
      intro r v s s' hall h
      simp only [submitAllM] at h
      cases h
      exact ⟨hall, rfl⟩
  | cons m rest ih =>
      intro r v s s' hall h
      simp only [submitAllM] at h
      split at h
      · simp at h
      · next t heq =>
          have hallt : ∀ p ∈ t.collected, p.snd = v := by
            rcases submit_ok_collected heq with hc | hc
            · rw [hc]; exact hall
            · rw [hc]; exact recordSubmission_all_value hall
          obtain ⟨ih1, ih2⟩ := ih r v t s' hallt h
          exact ⟨ih1, ih2.trans (submit_ok_frame heq).1⟩

lemma agreedValue_mem {c : List (Nat × List Nat)} {v : List Nat}
    (h : agreedValue c = some v) : ∃ k, (k, v) ∈ c := by
  unfold agreedValue at h
  split at h
  · simp at h
  · next k w rest =>
      split_ifs at h
      simp only [Option.some.injEq] at h
      subst h
      exact ⟨k, List.mem_cons_self _ _⟩

end Consensus

lemma demoReach : Consensus.Reachable cH0 bH0 7 [0, 1, 2] demoState2 := by
  have t1 : Consensus.Step cH0 bH0 demoInit demoSubA :=
    Consensus.Step.submitOk demoInit 0 1 [] demoSubA rfl
  have t2 : Consensus.Step cH0 bH0 demoSubA demoSubB :=
    Consensus.Step.submitOk demoSubA 1 1 [] demoSubB rfl
  have t3 : Consensus.Step cH0 bH0 demoSubB demoSubC :=
    Consensus.Step.submitOk demoSubB 2 1 [] demoSubC rfl
  have t4 : Consensus.Step cH0 bH0 demoSubC demoState2 :=
    Consensus.Step.finalizeOk demoSubC demoState2 rfl
  exact Relation.ReflTransGen.tail
    (Relation.ReflTransGen.tail
      (Relation.ReflTransGen.tail
        (Relation.ReflTransGen.tail Relation.ReflTransGen.refl t1) t2) t3) t4

/-- C1: in the end-to-end scenario (3 nodes, committee of size 3), when all
3 nodes submit the bytes of `"hello world fake state"` for the first compute
round, the finalized block has round 1 and its header's state root equals the
fixed hash
0x960b1a85d1de064664429c26be6f23f40004f01f9323a6c0da0ca4d310eb69ba, for any
content-hash function pinned at that fixed value on this input. -/
theorem scenario_first_round_state_root (contentHash : List Nat → Nat)
    (blockHash : Consensus.Block → Nat)
    (h : contentHash Consensus.helloBytes = Consensus.fixedHelloStateRoot) :
    ∃ s1 b,
      Consensus.runRound contentHash blockHash Consensus.helloBytes
          (Consensus.initState contentHash 7 [0, 1, 2]) = some s1 ∧
      s1.chain.getLast? = some b ∧ b.header.round = 1 ∧
      b.header.stateRoot = Consensus.fixedHelloStateRoot := by
  refine ⟨Consensus.scenarioS1 contentHash blockHash,
    Consensus.scenarioBlock1 contentHash blockHash,
    Consensus.runRound_hello contentHash blockHash, rfl, rfl, ?_⟩
  show contentHash Consensus.helloBytes = Consensus.fixedHelloStateRoot
  exact h

/-- Witness for C1: the scenario evaluated with a concrete content-hash
function pinned at the fixed state root. -/
theorem scenario_first_round_state_root_witness :
    ∃ s1 b,
      Consensus.runRound cHFix bH0 Consensus.helloBytes
          (Consensus.initState cHFix 7 [0, 1, 2]) = some s1 ∧
      s1.chain.getLast? = some b ∧ b.header.round = 1 ∧
      b.header.stateRoot = Consensus.fixedHelloStateRoot :=
  scenario_first_round_state_root cHFix bH0 (by decide)

/-- C2: every reachable backend state has an internally consistent chain: the
block at position `i` carries round `i`, and every block after genesis records
the hash of its predecessor, increments the predecessor's round by 1, and has
a state root recomputable as the content hash of its agreed recorded
submissions. -/
theorem chain_internally_consistent (contentHash : List Nat → Nat)
    (blockHash : Consensus.Block → Nat) (cid : Nat) (committee : List Nat)
    (s : Consensus.BackendState)
    (h : Consensus.Reachable contentHash blockHash cid committee s) :
    Consensus.roundsIndexed s.chain ∧
      Consensus.goodChain contentHash blockHash s.chain :=
  ⟨(Consensus.inv_reachable h).2.1, (Consensus.inv_reachable h).2.2⟩

/-- Witness for C2: the two blocks of a concretely reached state are
correctly linked. -/
theorem chain_internally_consistent_witness :
    Consensus.linkOK cH0 bH0 (Consensus.genesisBlock cH0 7) demoBlock1 :=
  (chain_internally_consistent cH0 bH0 7 [0, 1, 2] demoState2 demoReach).2
    0 (by decide)

/-- C3: when every committee member submits the empty byte sequence for a
round (starting from an empty submission set), the block finalized for that
round has a state root equal to the canonical empty-state hash, the content
hash of the empty byte sequence. -/
theorem empty_round_empty_state_root (contentHash : List Nat → Nat)
    (blockHash : Consensus.Block → Nat) (s s' s'' : Consensus.BackendState)
    (hc : s.collected = [])
    (h1 : Consensus.submitAllM s.committee (Consensus.openRound s) [] s
      = Except.ok s')
    (h2 : Consensus.finalize contentHash blockHash s' = some s'') :
    ∃ b, s''.chain.getLast? = some b ∧
      b.header.stateRoot = Consensus.emptyStateHash contentHash := by
  have hall : ∀ p ∈ s.collected, p.snd = ([] : List Nat) := by
    rw [hc]; intro p hp; cases hp
  obtain ⟨hall', -⟩ := Consensus.submitAllM_sound s.committee
    (Consensus.openRound s) [] s s' hall h1
  obtain ⟨-, prev, v0, -, hagree, hchain, -, -⟩ :=
    Consensus.finalize_some_spec h2
  obtain ⟨k, hkmem⟩ := Consensus.agreedValue_mem hagree
  have hv0 : v0 = [] := hall' (k, v0) hkmem
  subst hv0
  rw [hchain, List.getLast?_concat]
  exact ⟨_, rfl, rfl⟩

/-- Witness for C3: the demo round in which all of `[0, 1, 2]` submit the
empty sequence finalizes with the empty-state hash. -/
theorem empty_round_empty_state_root_witness :
    ∃ b, demoState2.chain.getLast? = some b ∧
      b.header.stateRoot = Consensus.emptyStateHash cH0 :=
  empty_round_empty_state_root cH0 bH0 demoInit demoSubC demoState2
    rfl rfl rfl

/-- C4: for every contract, the round-0 (genesis) block — produced before any
submissions are accepted, so with an empty submission set — has a state root
equal to the canonical hash of the empty byte sequence. -/
theorem genesis_empty_state_root (contentHash : List Nat → Nat) (cid : Nat)
    (committee : List Nat) :
    (Consensus.initState contentHash cid committee).chain
        = [Consensus.genesisBlock contentHash cid] ∧
    (Consensus.genesisBlock contentHash cid).header.round = 0 ∧
    (Consensus.genesisBlock contentHash cid).header.stateRoot
        = Consensus.emptyStateHash contentHash ∧
    (Consensus.genesisBlock contentHash cid).submissions = [] :=
  ⟨rfl, rfl, rfl, rfl⟩

/-- C5: block round numbers on a contract's stream are strictly increasing in
publication order, and after shutdown following the second non-genesis block
of the end-to-end scenario no further block is produced: the chain stays at
exactly 3 blocks (2 non-genesis plus genesis) under any further steps. -/
theorem block_stream_ordering_and_completion (contentHash : List Nat → Nat)
    (blockHash : Consensus.Block → Nat) :
    (∀ cid committee s, Consensus.Reachable contentHash blockHash cid committee s →
      ∀ i j (hi : i < s.chain.length) (hj : j < s.chain.length), i < j →
        (s.chain.get ⟨i, hi⟩).header.round
          < (s.chain.get ⟨j, hj⟩).header.round) ∧
    (∃ sF, Consensus.scenarioRun contentHash blockHash = some sF ∧
      sF.chain.length = 3 ∧ sF.isShutdown = true ∧
      ∀ s', Relation.ReflTransGen (Consensus.Step contentHash blockHash) sF s' →
        s'.chain = sF.chain) := by
  constructor
  · intro cid committee s h i j hi hj hij
    have hr := (Consensus.inv_reachable h).2.1
    rw [hr i hi, hr j hj]
    exact hij
  · refine ⟨Consensus.doShutdown (Consensus.scenarioS2 contentHash blockHash),
      Consensus.scenarioRun_eq contentHash blockHash, rfl, rfl, ?_⟩
    intro s' h
    exact (Consensus.rtg_shutdown_frozen rfl h).1

/-- Witness for C5: round ordering on a concretely reached chain, plus the
evaluated scenario. -/
theorem block_stream_ordering_and_completion_witness :
    (demoState2.chain.get ⟨0, by decide⟩).header.round
        < (demoState2.chain.get ⟨1, by decide⟩).header.round ∧
    (∃ sF, Consensus.scenarioRun cH0 bH0 = some sF ∧
      sF.chain.length = 3 ∧ sF.isShutdown = true ∧
      ∀ s', Relation.ReflTransGen (Consensus.Step cH0 bH0) sF s' →
        s'.chain = sF.chain) :=
  ⟨(block_stream_ordering_and_completion cH0 bH0).1 7 [0, 1, 2] demoState2
      demoReach 0 1 (by decide) (by decide) (by decide),
    (block_stream_ordering_and_completion cH0 bH0).2⟩

/-- C7: a submission from an identity not in the current committee is
rejected with `NotCommitteeMember`, and a submission from a member targeting
a round other than the open round is rejected with `StaleRound`; in both
cases the call returns only the error — no successor state is produced, so
the round and chain state are unchanged — and the rejection is the
synchronous return value. -/
theorem submission_rejection (s : Consensus.BackendState) (a r : Nat)
    (v : List Nat) (hs : s.isShutdown = false) :
    (a ∉ s.committee →
      Consensus.submit s a r v
        = Except.error Consensus.ConsensusError.NotCommitteeMember) ∧
    (a ∈ s.committee → r ≠ Consensus.openRound s →
      Consensus.submit s a r v
        = Except.error Consensus.ConsensusError.StaleRound) := by
  constructor
  · intro hmem
    unfold Consensus.submit
    rw [if_neg (by simp [hs]), if_neg hmem]
  · intro hmem hr
    unfold Consensus.submit
    rw [if_neg (by simp [hs]), if_pos hmem, if_neg hr]

/-- Witness for C7: a non-member and a stale round are rejected on a concrete
state. -/
theorem submission_rejection_witness :
    Consensus.submit demoInit 5 1 []
        = Except.error Consensus.ConsensusError.NotCommitteeMember ∧
    Consensus.submit demoInit 0 7 []
        = Except.error Consensus.ConsensusError.StaleRound :=
  ⟨(submission_rejection demoInit 5 1 [] rfl).1 (by decide),
   (submission_rejection demoInit 0 7 [] rfl).2 (by decide) (by decide)⟩

/-- C8: resubmission is last-write-wins: a committee member submitting twice
for the open round before finalization leaves exactly one recorded submission
keyed by that member, carrying the latest value. -/
theorem resubmission_last_write_wins (s : Consensus.BackendState) (a : Nat)
    (v1 v2 : List Nat) (s1 s2 : Consensus.BackendState)
    (hs : s.isShutdown = false) (hm : a ∈ s.committee)
    (h1 : Consensus.submit s a (Consensus.openRound s) v1 = Except.ok s1)
    (h2 : Consensus.submit s1 a (Consensus.openRound s1) v2 = Except.ok s2) :
    s2.collected.countP (fun p => p.fst == a) = 1 ∧
      Consensus.lookupSub s2.collected a = some v2 := by
  rw [Consensus.submit_ok_eq hs hm rfl] at h1
  simp only [Except.ok.injEq] at h1
  subst h1
  rw [Consensus.submit_ok_eq
    (s := { s with collected := Consensus.recordSubmission s.collected a v1 })
    hs hm rfl] at h2
  simp only [Except.ok.injEq] at h2
  subst h2
  exact ⟨Consensus.countP_recordSubmission _ a v2,
    Consensus.lookupSub_recordSubmission _ a v2⟩

/-- Witness for C8: node 0 submits `[1]` then `[2]`; one entry remains,
holding `[2]`. -/
theorem resubmission_last_write_wins_witness :
    demoResub2.collected.countP (fun p => p.fst == 0) = 1 ∧
      Consensus.lookupSub demoResub2.collected 0 = some [2] :=
  resubmission_last_write_wins demoInit 0 [1] [2] demoResub1 demoResub2
    rfl (by decide) rfl rfl
